import Mathlib

/-!
Verification development for the Flow Runner scheduling engine
(`src/prefect/engine/flow_runner.py`).

The embedding models tasks as natural-number identities, states as a tagged
variant type with the category predicates of the state algebra, and the
executor symbolically: dispatching a task produces an unresolved future, and
an oracle `exec : TaskId -> TSVal` gives the state each task's future resolves
to (the per-task Task Runner is an external collaborator, so its result is a
parameter).  The dispatch loop records a trace of events (dispatch and wait
operations) so that ordering and wait-set properties can be stated.

State classes (`state.py`) and the flow graph interface are not part of the
given sources; the definitions that stand in for them are modelled from the
spec and marked as such in their doc comments.  All other definitions are
translated directly from `flow_runner.py`.
-/

/-- Task identity (tasks are compared by identity in the source). -/
abbrev TaskId := Nat

/-- Input dictionaries (`cached_inputs`, `task_inputs`): parameter name to
value; values are opaque to the Flow Runner, modelled as naturals. -/
abbrev Inputs := List (String × Nat)

/-- Modelled from the spec: the closed set of state variants of the state
algebra (`state.py` is not among the given sources). -/
inductive SKind
  | pending
  | scheduled
  | retrying
  | running
  | success
  | cached
  | failed
  | triggerFailed
  | skipped
  | timedOut
deriving DecidableEq, Repr

/-- Modelled from the spec: `is_pending` — the not-started category
(Pending, Scheduled, Retrying). -/
def SKind.is_pending : SKind → Bool
  | .pending => true
  | .scheduled => true
  | .retrying => true
  | _ => false

/-- Modelled from the spec: `is_running`. -/
def SKind.is_running : SKind → Bool
  | .running => true
  | _ => false

/-- Modelled from the spec: `is_finished` — Success, Cached, Failed,
TriggerFailed, Skipped, TimedOut. -/
def SKind.is_finished : SKind → Bool
  | .success => true
  | .cached => true
  | .failed => true
  | .triggerFailed => true
  | .skipped => true
  | .timedOut => true
  | _ => false

/-- Modelled from the spec: `is_successful` — the success-like finished
variants (Success, Cached, Skipped). -/
def SKind.is_successful : SKind → Bool
  | .success => true
  | .cached => true
  | .skipped => true
  | _ => false

/-- Modelled from the spec: `is_failed` — the failed-like finished variants
(Failed, TriggerFailed, TimedOut). -/
def SKind.is_failed : SKind → Bool
  | .failed => true
  | .triggerFailed => true
  | .timedOut => true
  | _ => false

/-- A task-level state: variant kind, message (the source's `None` message is
modelled as the empty string) and `cached_inputs`. -/
structure TState where
  kind : SKind
  message : String
  cached_inputs : Inputs
deriving DecidableEq, Repr

/-- A task's recorded state value: either a scalar state or — for a mapped
task — a sequence of child states (a Python `list` of states). -/
inductive TSVal
  | single (s : TState)
  | mapped (children : List TState)
deriving DecidableEq, Repr

/-- `flatten_seq` as used at aggregation: a scalar state contributes itself,
a mapped sequence contributes its child states individually. -/
def flattenSeq : List TSVal → List TState
  | [] => []
  | .single s :: rest => s :: flattenSeq rest
  | .mapped cs :: rest => cs ++ flattenSeq rest

/-- An executor value held in `task_states`: either an unresolved future for
a dispatched task, or a materialized value (caller-supplied states and
defaultdict defaults are materialized from the start). -/
inductive FutVal
  | fut (t : TaskId)
  | val (v : TSVal)
deriving DecidableEq, Repr

/-- `executor.wait` on a single value: a future resolves to the state the
oracle assigns its task; a materialized value is returned unchanged. -/
def resolveFut (exec : TaskId → TSVal) : FutVal → TSVal
  | .fut t => exec t
  | .val v => v

/-- A directed edge of the flow graph: upstream task, downstream task, the
keyword `key` naming the downstream input, and the per-edge mapped flag
(both only consumed by the Task Runner, kept for fidelity of the data
model). -/
structure Edge where
  upstream : TaskId
  downstream : TaskId
  key : Option String
  mappedEdge : Bool
deriving DecidableEq, Repr

/-- The immutable flow consumed by the runner.  `order` is the topological
enumeration of all tasks that `sorted_tasks` is based on; `mapped_info t`
is `flow.task_info[t]["mapped"]`; `reference_tasks` is the user-overridable
reference set (defaults to the terminal tasks in the source). -/
structure PFlow where
  tasks : List TaskId
  edges : List Edge
  order : List TaskId
  mapped_info : TaskId → Bool
  throttle : List (String × Int)
  reference_tasks : List TaskId

/-- `flow.edges_to(task)`: all edges whose downstream task is `t`. -/
def PFlow.edges_to (flow : PFlow) (t : TaskId) : List Edge :=
  flow.edges.filter (fun e => decide (e.downstream = t))

/-- Modelled from the spec: `flow.terminal_tasks()` — tasks with no outgoing
edges (the flow class is not among the given sources). -/
def PFlow.terminal_tasks (flow : PFlow) : List TaskId :=
  flow.tasks.filter (fun t => decide (∀ e ∈ flow.edges, e.upstream ≠ t))

/-- One step of reachability closure: add every task one edge downstream of
the current set. -/
def reachStep (edges : List Edge) (s : List TaskId) : List TaskId :=
  s ++ (edges.filter
    (fun e => decide (e.upstream ∈ s ∧ ¬ e.downstream ∈ s))).map
      (fun e => e.downstream)

/-- Iterated reachability closure with explicit fuel. -/
def reachSet (edges : List Edge) (roots : List TaskId) : Nat → List TaskId
  | 0 => roots
  | n + 1 => reachStep edges (reachSet edges roots n)

/-- Tasks reachable from `roots` by following edges downstream. -/
def reachableFrom (flow : PFlow) (roots : List TaskId) : List TaskId :=
  reachSet flow.edges roots flow.tasks.length

/-- Modelled from the spec: `flow.sorted_tasks(root_tasks)` — a topological
order restricted to the subgraph reachable from the given roots; with no
roots supplied the full topological order (the flow class is not among
the given sources). -/
def PFlow.sorted_tasks (flow : PFlow) (roots : List TaskId) : List TaskId :=
  if roots.isEmpty then flow.order
  else flow.order.filter (fun t => decide (t ∈ reachableFrom flow roots))

/-- A flow-level state: variant kind, message, and the optional `result`
mapping from returned tasks to their final states (`None` when absent). -/
structure FState where
  kind : SKind
  message : String
  result : Option (List (TaskId × TSVal))
deriving DecidableEq, Repr

/-- The `ENDRUN` sentinel and ordinary exceptions raised inside the
scheduling body of `FlowRunner.run`. -/
inductive BodyExc
  | endrun (s : FState)
  | other (msg : String)
deriving DecidableEq, Repr

/-- Errors that escape `FlowRunner.run` to the caller: pre-flight
configuration errors (the source's `ValueError`s, the spec's `ConfigError`)
and exceptions re-raised under the `_raise_on_exception` debug flag. -/
inductive RunError
  | config (msg : String)
  | raised (msg : String)
deriving DecidableEq, Repr

/-- The trace of executor operations the dispatch loop performs:
`dispatched` records one `executor.map`/`executor.submit` call with the
arguments handed to the Task Runner; `waited` records one `executor.wait`
call with the tasks whose states are waited on. -/
inductive Event
  | dispatched (t : TaskId) (mapped : Bool) (stateArg : Option FutVal)
      (upstream_states : List (Edge × FutVal)) (inputs : Inputs)
      (ignore_trigger : Bool)
  | waited (ts : List TaskId)
deriving DecidableEq, Repr

/-- The task a dispatch event dispatched, if any. -/
def Event.taskOf : Event → Option TaskId
  | .dispatched t _ _ _ _ _ => some t
  | .waited _ => none

/-- The upstream-states argument of a dispatch event. -/
def Event.upsOf : Event → List (Edge × FutVal)
  | .dispatched _ _ _ u _ _ => u
  | .waited _ => []

/-- The inputs argument of a dispatch event. -/
def Event.inputsOf : Event → Inputs
  | .dispatched _ _ _ _ i _ => i
  | .waited _ => []

/-- The `ignore_trigger` argument of a dispatch event. -/
def Event.igOf : Event → Bool
  | .dispatched _ _ _ _ _ ig => ig
  | .waited _ => false

/-- The current-state argument (`state=task_states.get(task)`) of a dispatch
event. -/
def Event.stateArgOf : Event → Option FutVal
  | .dispatched _ _ sa _ _ _ => sa
  | .waited _ => none

/-- The mutable `task_states` mapping, as an insertion-ordered association
list (a Python `defaultdict`). -/
abbrev TaskDict := List (TaskId × FutVal)

/-- Association-list lookup in `task_states`. -/
def lookupTS : TaskDict → TaskId → Option FutVal
  | [], _ => none
  | p :: ps, t => if p.1 = t then some p.2 else lookupTS ps t

/-- Overwriting update `task_states[task] = value`. -/
def updateTS : TaskDict → TaskId → FutVal → TaskDict
  | [], t, v => [(t, v)]
  | p :: ps, t, v => if p.1 = t then (t, v) :: ps else p :: updateTS ps t v

/-- The `defaultdict` default: `Failed(message="Task state not available.")`. -/
def default_task_state : TState :=
  { kind := .failed, message := "Task state not available.", cached_inputs := [] }

/-- `task_states[t]` on the defaultdict: returns the stored value, or
inserts and returns the default `Failed` state when `t` has no entry. -/
def dictLookupD (d : TaskDict) (t : TaskId) : TaskDict × FutVal :=
  match lookupTS d t with
  | some v => (d, v)
  | none =>
    (d ++ [(t, .val (.single default_task_state))], .val (.single default_task_state))

/-- The edge-processing loop: `upstream_states[edge] = task_states[edge.upstream_task]`
for each incoming edge, with the defaultdict inserting defaults for absent
upstream tasks. -/
def gatherUpstreams (d : TaskDict) : List Edge → TaskDict × List (Edge × FutVal)
  | [] => (d, [])
  | e :: es =>
    let r := dictLookupD d e.upstream
    let rest := gatherUpstreams r.1 es
    (rest.1, (e, r.2) :: rest.2)

/-- The `task_inputs` harvest: when the task is in `start_tasks` and has an
entry in `task_states`, and that entry is not a list, the source asserts the
state is `Pending` (`AssertionError` otherwise) and takes its
`cached_inputs`; in every other case the inputs stay empty. -/
def taskInputs (start_tasks : List TaskId) (d : TaskDict) (t : TaskId) :
    Except String Inputs :=
  if t ∈ start_tasks then
    match lookupTS d t with
    | none => .ok []
    | some pv =>
      match pv with
      | .val (.mapped _) => .ok []
      | .val (.single s) =>
        if s.kind.is_pending then .ok s.cached_inputs else .error "AssertionError"
      | .fut _ => .error "AssertionError"
  else .ok []

/-- The `upstream_mapped` wait performed for non-mapped tasks: every
upstream entry whose upstream task is mapped is waited on and replaced by
its materialized value; other entries are untouched. -/
def resolveMappedUpstreams (flow : PFlow) (exec : TaskId → TSVal)
    (ups : List (Edge × FutVal)) : List (Edge × FutVal) :=
  ups.map (fun p =>
    if flow.mapped_info p.1.upstream then (p.1, .val (resolveFut exec p.2)) else p)

/-- One iteration of the dispatch loop for task `t`: gather upstream states,
harvest inputs, then dispatch via `executor.map` (mapped task) or
`executor.submit` (otherwise, after waiting on mapped upstreams), recording
the returned future in `task_states`.  An `AssertionError` from the inputs
harvest aborts the loop. -/
def processTask (flow : PFlow) (exec : TaskId → TSVal) (start_tasks : List TaskId)
    (d : TaskDict) (t : TaskId) : Except String (TaskDict × Event) :=
  let g := gatherUpstreams d (flow.edges_to t)
  let d1 := g.1
  let ups := g.2
  match taskInputs start_tasks d1 t with
  | .error m => .error m
  | .ok inputs =>
    let stArg := lookupTS d1 t
    if flow.mapped_info t then
      .ok (updateTS d1 t (.fut t),
        .dispatched t true stArg ups inputs (decide (t ∈ start_tasks)))
    else
      .ok (updateTS d1 t (.fut t),
        .dispatched t false stArg (resolveMappedUpstreams flow exec ups) inputs
          (decide (t ∈ start_tasks)))

/-- The dispatch loop over the sorted task list, accumulating the event
trace; an exception stops the loop and propagates with the events emitted
so far. -/
def dispatchAll (flow : PFlow) (exec : TaskId → TSVal) (start_tasks : List TaskId) :
    List TaskId → TaskDict → List Event → List Event × Except String TaskDict
  | [], d, evs => (evs, .ok d)
  | t :: ts, d, evs =>
    match processTask flow exec start_tasks d t with
    | .error m => (evs, .error m)
    | .ok (d2, ev) => dispatchAll flow exec start_tasks ts d2 (evs ++ [ev])

/-- `isinstance(state, (Failed, Retrying))` on a recorded state value: true
for a scalar state of a failed-like class or of class Retrying; a list of
child states is never an instance. -/
def isFailedOrRetrying : TSVal → Bool
  | .single s => s.kind.is_failed || s.kind == .retrying
  | .mapped _ => false

/-- Set union keeping the left operand's order (Python set union; only
membership is ever consumed downstream). -/
def unionTasks (a b : List TaskId) : List TaskId :=
  a ++ b.filter (fun t => decide (¬ t ∈ a))

/-- `executor.wait(dict(task_states))`: every recorded entry resolved. -/
def allFinalStates (exec : TaskId → TSVal) (d : TaskDict) : List (TaskId × TSVal) :=
  d.map (fun p => (p.1, resolveFut exec p.2))

/-- The tasks whose final state is an instance of `Failed` or `Retrying`. -/
def failedOrRetryingTasks (exec : TaskId → TSVal) (d : TaskDict) : List TaskId :=
  ((allFinalStates exec d).filter (fun p => isFailedOrRetrying p.2)).map
    (fun p => p.1)

/-- The return-task set after aggregation: under `return_failed` the failed
and retrying tasks are added (`return_tasks.update(failed_tasks)`);
otherwise the set is unchanged. -/
def collectReturnTasks (exec : TaskId → TSVal) (d : TaskDict)
    (return_tasks : List TaskId) (return_failed : Bool) : List TaskId :=
  if return_failed then unionTasks return_tasks (failedOrRetryingTasks exec d)
  else return_tasks

/-- The tasks whose states the aggregation waits on: all recorded tasks
under `return_failed`, otherwise `terminal_tasks ∪ reference_tasks ∪
return_tasks`. -/
def aggWaitTasks (flow : PFlow) (d : TaskDict) (return_tasks : List TaskId)
    (return_failed : Bool) : List TaskId :=
  if return_failed then d.map (fun p => p.1)
  else unionTasks (unionTasks flow.terminal_tasks flow.reference_tasks) return_tasks

/-- Association-list lookup in a resolved `final_states` mapping. -/
def lookupFinal : List (TaskId × TSVal) → TaskId → Option TSVal
  | [], _ => none
  | p :: ps, t => if p.1 = t then some p.2 else lookupFinal ps t

/-- `final_states[t]` over a list of tasks on a plain dict: `KeyError` when
any task is absent. -/
def traverseFinals (f : TaskId → Option TSVal) : List TaskId → Option (List TSVal)
  | [] => some []
  | t :: ts =>
    match f t, traverseFinals f ts with
    | some v, some vs => some (v :: vs)
    | _, _ => none

/-- The ordered, first-match-wins classification of the final flow state
from the flattened terminal states, flattened reference ("key") states and
the `return_states` mapping (source lines 375-410). -/
def classify (terminal_states key_states : List TState)
    (return_states : List (TaskId × TSVal)) : FState :=
  if !(terminal_states.all (fun s => s.kind.is_finished)) then
    { kind := .pending, message := "Some terminal tasks are still pending.",
      result := some return_states }
  else if key_states.any (fun s => s.kind.is_failed) then
    { kind := .failed, message := "Some reference tasks failed.",
      result := some return_states }
  else if key_states.all (fun s => s.kind.is_successful) then
    { kind := .success, message := "All reference tasks succeeded.",
      result := some return_states }
  else
    { kind := .success, message := "No reference tasks failed.",
      result := some return_states }

/-- Build `terminal_states`, `key_states` and `return_states` from the
resolved `final_states` mapping and classify; a missing entry raises
`KeyError` (the resolved mapping is a plain dict). -/
def classifyFrom (f : TaskId → Option TSVal)
    (terminal reference rts : List TaskId) : Except String FState :=
  match traverseFinals f terminal, traverseFinals f reference,
      traverseFinals f rts with
  | some tv, some kv, some rv =>
    .ok (classify (flattenSeq tv) (flattenSeq kv) (rts.zip rv))
  | _, _, _ => .error "KeyError"

/-- `final_states[t]` on the still-default defaultdict (the non-
`return_failed` branch): the stored value resolved, or the default `Failed`
state for an absent task. -/
def getFinalD (d : TaskDict) (exec : TaskId → TSVal) (t : TaskId) : TSVal :=
  match lookupTS d t with
  | some v => resolveFut exec v
  | none => .single default_task_state

/-- The result-collection section (source lines 347-410): wait on the
aggregation wait set, update the return tasks under `return_failed`, and
classify the final flow state. -/
def collectResults (flow : PFlow) (exec : TaskId → TSVal) (d : TaskDict)
    (return_tasks : List TaskId) (return_failed : Bool) :
    Event × Except String FState :=
  if return_failed then
    let finals := allFinalStates exec d
    (.waited (aggWaitTasks flow d return_tasks true),
      classifyFrom (lookupFinal finals) flow.terminal_tasks flow.reference_tasks
        (collectReturnTasks exec d return_tasks true))
  else
    let ws := aggWaitTasks flow d return_tasks false
    let finals := ws.map (fun t => (t, getFinalD d exec t))
    (.waited ws,
      classifyFrom (lookupFinal finals) flow.terminal_tasks flow.reference_tasks
        return_tasks)

/-- `FlowRunner.get_flow_run_state`: require a Running flow state, seed
`task_states` with the caller-supplied states, dispatch every task in
`sorted_tasks(start_tasks)` order, then collect and classify results.
Exceptions become `BodyExc.other`; a non-running state raises `ENDRUN`. -/
def getFlowRunState (flow : PFlow) (exec : TaskId → TSVal) (state : FState)
    (supplied : List (TaskId × TSVal)) (start_tasks : List TaskId)
    (return_tasks : List TaskId) (return_failed : Bool) :
    List Event × Except BodyExc FState :=
  if !state.kind.is_running then ([], .error (.endrun state))
  else
    let d0 : TaskDict := supplied.map (fun p => (p.1, FutVal.val p.2))
    match dispatchAll flow exec start_tasks (flow.sorted_tasks start_tasks) d0 [] with
    | (evs, .error m) => (evs, .error (.other m))
    | (evs, .ok d) =>
      let c := collectResults flow exec d return_tasks return_failed
      match c.2 with
      | .error m => (evs ++ [c.1], .error (.other m))
      | .ok fs => (evs ++ [c.1], .ok fs)

/-- `FlowRunner.check_flow_is_pending_or_running`: `ENDRUN` with the
unchanged state when the flow is finished, or when it is neither pending
nor running. -/
def check_flow_is_pending_or_running (s : FState) : Except BodyExc FState :=
  if s.kind.is_finished then .error (.endrun s)
  else if !(s.kind.is_pending || s.kind.is_running) then .error (.endrun s)
  else .ok s

/-- `FlowRunner.set_flow_to_running`: a pending flow becomes
`Running(message="Running flow.")`, a running flow passes through, anything
else raises `ENDRUN`. -/
def set_flow_to_running (s : FState) : Except BodyExc FState :=
  if s.kind.is_pending then .ok { kind := .running, message := "Running flow.", result := none }
  else if s.kind.is_running then .ok s
  else .error (.endrun s)

/-- The scheduling body of `FlowRunner.run` (the `try` block): the
pending-or-running check, the transition to Running, then
`get_flow_run_state`. -/
def scheduleBody (flow : PFlow) (exec : TaskId → TSVal) (state0 : FState)
    (supplied : List (TaskId × TSVal)) (start_tasks : List TaskId)
    (return_tasks : List TaskId) (return_failed : Bool) :
    List Event × Except BodyExc FState :=
  match check_flow_is_pending_or_running state0 with
  | .error e => ([], .error e)
  | .ok s1 =>
    match set_flow_to_running s1 with
    | .error e => ([], .error e)
    | .ok s2 =>
      getFlowRunState flow exec s2 supplied start_tasks return_tasks return_failed

/-- The exception handling around the scheduling body (source lines
150-178): `ENDRUN` unwraps its carried state; any other exception is
re-raised when `_raise_on_exception` is set and otherwise becomes
`Failed(message=exc)`. -/
def handleBody (raise_on_exception : Bool)
    (r : List Event × Except BodyExc FState) :
    List Event × Except RunError FState :=
  match r with
  | (evs, .ok s) => (evs, .ok s)
  | (evs, .error (.endrun s)) => (evs, .ok s)
  | (evs, .error (.other e)) =>
    if raise_on_exception then (evs, .error (.raised e))
    else (evs, .ok { kind := .failed, message := e, result := none })

/-- `min(throttle.values(), default=1)`. -/
def minDefault1 : List Int → Int
  | [] => 1
  | x :: xs => xs.foldl min x

/-- The `bad_tags` string of the throttle error message: the offending tags,
each quoted, joined by commas. -/
def badTagsStr (throttle : List (String × Int)) : String :=
  String.intercalate ", "
    ((throttle.filter (fun p => decide (p.2 ≤ 0))).map
      (fun p => "\"" ++ p.1 ++ "\""))

/-- The formatted throttle `ValueError` message. -/
def throttleErrorMsg (throttle : List (String × Int)) : String :=
  "Cannot throttle tags " ++ badTagsStr throttle ++
    " - an invalid value less than 1 was provided."

/-- The `return_tasks` validation `ValueError` message. -/
def returnTasksErrorMsg : String :=
  "Some tasks in return_tasks were not found in the flow."

/-- The default starting flow state, `Pending()`. -/
def pendingFState : FState := { kind := .pending, message := "", result := none }

/-- The effective throttle of a run: the `throttle` argument, falling back
to the flow's own throttle when the argument is empty
(`throttle = throttle or self.flow.throttle`). -/
def effThrottle (flow : PFlow) (throttleArg : List (String × Int)) :
    List (String × Int) :=
  if throttleArg.isEmpty then flow.throttle else throttleArg

/-- `FlowRunner.run`: the effective throttle (the argument, falling back to
the flow's own throttle when empty), the two pre-flight validations raising
configuration errors before anything is dispatched, then the guarded
scheduling body.  `raise_on_exception` is the `_raise_on_exception` context
flag.  Returns the event trace alongside the outcome. -/
def FlowRunner_run (flow : PFlow) (exec : TaskId → TSVal) (state0 : Option FState)
    (supplied : List (TaskId × TSVal)) (start_tasks : List TaskId)
    (return_tasks : List TaskId) (return_failed : Bool)
    (throttleArg : List (String × Int)) (raise_on_exception : Bool) :
    List Event × Except RunError FState :=
  let st := state0.getD pendingFState
  let eff := effThrottle flow throttleArg
  if minDefault1 (eff.map (fun p => p.2)) ≤ 0 then
    ([], .error (.config (throttleErrorMsg eff)))
  else if ∃ t ∈ return_tasks, ¬ t ∈ flow.tasks then
    ([], .error (.config returnTasksErrorMsg))
  else
    handleBody raise_on_exception
      (scheduleBody flow exec st supplied start_tasks return_tasks return_failed)

/-- A task appears strictly before another in a list. -/
def Precedes (l : List TaskId) (a b : TaskId) : Prop :=
  ∃ l1 l2 l3, l = l1 ++ a :: l2 ++ b :: l3

/-- The flow's stored enumeration is a topological order: every edge's
upstream task appears before its downstream task. -/
def TopoOK (flow : PFlow) : Prop :=
  ∀ e ∈ flow.edges, Precedes flow.order e.upstream e.downstream

/-- Concrete success task state used in witnesses. -/
def sSuccess : TState := { kind := .success, message := "", cached_inputs := [] }

/-- Concrete failed task state used in witnesses. -/
def sFailed : TState := { kind := .failed, message := "", cached_inputs := [] }

/-- Concrete pending task state used in witnesses. -/
def sPending : TState := { kind := .pending, message := "", cached_inputs := [] }

/-- Concrete skipped task state used in witnesses. -/
def sSkipped : TState := { kind := .skipped, message := "", cached_inputs := [] }

/-- Concrete retrying task state used in witnesses. -/
def sRetrying : TState := { kind := .retrying, message := "", cached_inputs := [] }

/-- A pending state carrying a cached input, as in the resume scenario. -/
def sPendingX : TState := { kind := .pending, message := "", cached_inputs := [("x", 7)] }

/-- A success state carrying a cached input (not a legal harvest source). -/
def sSuccessX : TState := { kind := .success, message := "", cached_inputs := [("x", 7)] }

/-- An oracle under which every task future resolves to a success state. -/
def execSucc : TaskId → TSVal := fun _ => .single sSuccess

/-- An oracle under which task 0 fails and every other task succeeds. -/
def execFail0 : TaskId → TSVal := fun t => if t = 0 then .single sFailed else .single sSuccess

/-- A two-task flow with the single edge 0 → 1, nothing mapped. -/
def flowAB : PFlow :=
  { tasks := [0, 1]
    edges := [{ upstream := 0, downstream := 1, key := none, mappedEdge := false }]
    order := [0, 1]
    mapped_info := fun _ => false
    throttle := []
    reference_tasks := [1] }

/-- The flow with edge 0 → 1 where task 0 is mapped. -/
def flowABmapUp : PFlow :=
  { tasks := [0, 1]
    edges := [{ upstream := 0, downstream := 1, key := none, mappedEdge := true }]
    order := [0, 1]
    mapped_info := fun t => t = 0
    throttle := []
    reference_tasks := [1] }

/-- The flow with edge 0 → 1 where both tasks are mapped. -/
def flowABmapBoth : PFlow :=
  { tasks := [0, 1]
    edges := [{ upstream := 0, downstream := 1, key := none, mappedEdge := true }]
    order := [0, 1]
    mapped_info := fun _ => true
    throttle := []
    reference_tasks := [1] }

/-- A finished flow state used in witnesses. -/
def fsDone : FState := { kind := .success, message := "done", result := none }

/-- A running flow state used in witnesses. -/
def fsRunning : FState := { kind := .running, message := "", result := none }

/-- The edge 0 → 1 of `flowAB`. -/
def edge01 : Edge := { upstream := 0, downstream := 1, key := none, mappedEdge := false }

/-- The mapped edge 0 → 1 of `flowABmapUp`. -/
def edge01m : Edge := { upstream := 0, downstream := 1, key := none, mappedEdge := true }

/-- The `task_states` dictionary after fully dispatching `flowAB`. -/
def d01 : TaskDict := [(0, .fut 0), (1, .fut 1)]

/-- The dispatch event of task 0 in a full run of `flowAB`. -/
def evA0 : Event := .dispatched 0 false none [] [] false

/-- The dispatch event of task 1 in a full run of `flowAB`. -/
def evA1 : Event := .dispatched 1 false none [(edge01, .fut 0)] [] false

/-- A concrete resolved-states mapping used in the aggregation witness. -/
def fC1 : TaskId → Option TSVal :=
  fun t => if t = 0 then some (.single sPending) else none

/-! ## Basic lemmas about the `task_states` association list -/

/-- A present entry stays present (with its value) under appending. -/
theorem lookupTS_append_some {d : TaskDict} {t : TaskId} {v : FutVal}
    (d2 : TaskDict) (h : lookupTS d t = some v) :
    lookupTS (d ++ d2) t = some v := by
  induction d with
  | nil => simp [lookupTS] at h
  | cons p ps ih =>
    by_cases hpt : p.1 = t
    · simp only [lookupTS, hpt, if_pos] at h
      simpa [lookupTS, hpt] using h
    · simp only [lookupTS, hpt, if_neg, if_false] at h
      simpa [lookupTS, hpt] using ih h

/-- `updateTS` stores the given value at the given key. -/
theorem lookupTS_updateTS_self (d : TaskDict) (t : TaskId) (v : FutVal) :
    lookupTS (updateTS d t v) t = some v := by
  induction d with
  | nil => simp [updateTS, lookupTS]
  | cons p ps ih =>
    by_cases hpt : p.1 = t
    · simp [updateTS, hpt, lookupTS]
    · simp [updateTS, hpt, lookupTS, ih]

/-- `updateTS` leaves other keys untouched. -/
theorem lookupTS_updateTS_ne (d : TaskDict) (t u : TaskId) (v : FutVal)
    (h : u ≠ t) : lookupTS (updateTS d u v) t = lookupTS d t := by
  induction d with
  | nil => simp [updateTS, lookupTS, h]
  | cons p ps ih =>
    by_cases hpu : p.1 = u
    · have hpt : ¬ p.1 = t := by rw [hpu]; exact h
      simp [updateTS, hpu, lookupTS, h, hpt]
    · simp only [updateTS, hpu, if_neg, if_false]
      by_cases hpt : p.1 = t
      · simp [lookupTS, hpt]
      · simp [lookupTS, hpt, ih]

/-- The defaultdict read preserves present entries of other keys (it only
ever appends a fresh entry). -/
theorem dictLookupD_fst_preserves {d : TaskDict} {t : TaskId} {v : FutVal}
    (u : TaskId) (h : lookupTS d t = some v) :
    lookupTS (dictLookupD d u).1 t = some v := by
  unfold dictLookupD
  cases hu : lookupTS d u with
  | some w => simpa [hu] using h
  | none => simpa [hu] using lookupTS_append_some _ h

/-- Gathering upstream states preserves present entries. -/
theorem gatherUpstreams_fst_preserves {d : TaskDict} {t : TaskId} {v : FutVal}
    (es : List Edge) (h : lookupTS d t = some v) :
    lookupTS (gatherUpstreams d es).1 t = some v := by
  induction es generalizing d with
  | nil => simpa [gatherUpstreams] using h
  | cons e es ih =>
    simp only [gatherUpstreams]
    exact ih (dictLookupD_fst_preserves e.upstream h)

/-! ## Lemmas about one dispatch-loop iteration -/

/-- A successful iteration records the dispatched task's future in the
upstream-augmented dictionary. -/
theorem processTask_ok_dict {flow : PFlow} {exec : TaskId → TSVal}
    {start : List TaskId} {d : TaskDict} {t : TaskId} {d2 : TaskDict}
    {ev : Event} (h : processTask flow exec start d t = .ok (d2, ev)) :
    d2 = updateTS (gatherUpstreams d (flow.edges_to t)).1 t (.fut t) := by
  simp only [processTask] at h
  cases hti : taskInputs start (gatherUpstreams d (flow.edges_to t)).1 t with
  | error m => rw [hti] at h; cases h
  | ok inputs =>
    rw [hti] at h
    by_cases hm : flow.mapped_info t
    · simp [hm] at h
      exact h.1.symm
    · simp [hm] at h
      exact h.1.symm

/-- A successful iteration dispatches exactly the processed task. -/
theorem processTask_ok_taskOf {flow : PFlow} {exec : TaskId → TSVal}
    {start : List TaskId} {d : TaskDict} {t : TaskId} {d2 : TaskDict}
    {ev : Event} (h : processTask flow exec start d t = .ok (d2, ev)) :
    ev.taskOf = some t := by
  simp only [processTask] at h
  cases hti : taskInputs start (gatherUpstreams d (flow.edges_to t)).1 t with
  | error m => rw [hti] at h; cases h
  | ok inputs =>
    rw [hti] at h
    by_cases hm : flow.mapped_info t
    · simp [hm] at h
      rw [← h.2]; rfl
    · simp [hm] at h
      rw [← h.2]; rfl

/-- A successful iteration for a task other than `t` leaves `t`'s present
entry unchanged. -/
theorem processTask_preserves_some {flow : PFlow} {exec : TaskId → TSVal}
    {start : List TaskId} {d : TaskDict} {u t : TaskId} {v : FutVal}
    {d2 : TaskDict} {ev : Event} (hne : u ≠ t)
    (h : lookupTS d t = some v)
    (hp : processTask flow exec start d u = .ok (d2, ev)) :
    lookupTS d2 t = some v := by
  rw [processTask_ok_dict hp, lookupTS_updateTS_ne _ _ _ _ hne]
  exact gatherUpstreams_fst_preserves _ h

/-- A successful iteration keeps every present key present. -/
theorem processTask_isSome_mono {flow : PFlow} {exec : TaskId → TSVal}
    {start : List TaskId} {d : TaskDict} {u t : TaskId}
    {d2 : TaskDict} {ev : Event}
    (h : (lookupTS d t).isSome) (hp : processTask flow exec start d u = .ok (d2, ev)) :
    (lookupTS d2 t).isSome := by
  obtain ⟨v, hv⟩ := Option.isSome_iff_exists.mp h
  rw [processTask_ok_dict hp]
  by_cases hut : u = t
  · subst hut; rw [lookupTS_updateTS_self]; rfl
  · rw [lookupTS_updateTS_ne _ _ _ _ hut,
      gatherUpstreams_fst_preserves _ hv]; rfl

/-! ## Lemmas about the dispatch loop -/

/-- The dispatch loop only ever appends to the accumulated event trace. -/
theorem dispatchAll_events_prefix (flow : PFlow) (exec : TaskId → TSVal)
    (start : List TaskId) :
    ∀ (L : List TaskId) (d : TaskDict) (evs0 : List Event),
      ∃ tail, (dispatchAll flow exec start L d evs0).1 = evs0 ++ tail := by
  intro L
  induction L with
  | nil => intro d evs0; exact ⟨[], by simp [dispatchAll]⟩
  | cons t ts ih =>
    intro d evs0
    simp only [dispatchAll]
    cases hp : processTask flow exec start d t with
    | error m => exact ⟨[], by simp⟩
    | ok r =>
      obtain ⟨tail, htail⟩ := ih r.1 (evs0 ++ [Prod.snd r])
      exact ⟨[r.2] ++ tail, by simpa using htail⟩

/-- A successfully completed dispatch loop keeps every present key present. -/
theorem dispatchAll_ok_mono (flow : PFlow) (exec : TaskId → TSVal)
    (start : List TaskId) :
    ∀ (L : List TaskId) (d : TaskDict) (evs0 evs : List Event) (d2 : TaskDict),
      dispatchAll flow exec start L d evs0 = (evs, .ok d2) →
      ∀ t, (lookupTS d t).isSome → (lookupTS d2 t).isSome := by
  intro L
  induction L with
  | nil =>
    intro d evs0 evs d2 h t ht
    simp only [dispatchAll, Prod.mk.injEq, Except.ok.injEq] at h
    rw [← h.2]; exact ht
  | cons u ts ih =>
    intro d evs0 evs d2 h t ht
    simp only [dispatchAll] at h
    cases hp : processTask flow exec start d u with
    | error m => rw [hp] at h; cases h
    | ok r =>
      rw [hp] at h
      exact ih r.1 _ _ _ h t (processTask_isSome_mono ht (by rw [hp]))

/-- Every task processed by a successfully completed dispatch loop has an
entry in the final `task_states`. -/
theorem dispatchAll_keys (flow : PFlow) (exec : TaskId → TSVal)
    (start : List TaskId) :
    ∀ (L : List TaskId) (d : TaskDict) (evs0 evs : List Event) (d2 : TaskDict),
      dispatchAll flow exec start L d evs0 = (evs, .ok d2) →
      ∀ t ∈ L, (lookupTS d2 t).isSome := by
  intro L
  induction L with
  | nil => intro d evs0 evs d2 _ t ht; cases ht
  | cons u ts ih =>
    intro d evs0 evs d2 h t ht
    simp only [dispatchAll] at h
    cases hp : processTask flow exec start d u with
    | error m => rw [hp] at h; cases h
    | ok r =>
      rw [hp] at h
      rcases List.mem_cons.mp ht with rfl | hts
      · have hself : (lookupTS r.1 t).isSome := by
          rw [processTask_ok_dict (show processTask flow exec start d t = .ok (r.1, r.2) from by rw [hp])]
          rw [lookupTS_updateTS_self]; rfl
        exact dispatchAll_ok_mono flow exec start ts r.1 _ _ _ h t hself
      · exact ih r.1 _ _ _ h t hts

/-- A present entry for a task not processed by the loop survives with its
value unchanged. -/
theorem dispatchAll_preserves_some (flow : PFlow) (exec : TaskId → TSVal)
    (start : List TaskId) :
    ∀ (L : List TaskId) (d : TaskDict) (evs0 evs : List Event) (d2 : TaskDict)
      (t : TaskId) (v : FutVal),
      ¬ t ∈ L → lookupTS d t = some v →
      dispatchAll flow exec start L d evs0 = (evs, .ok d2) →
      lookupTS d2 t = some v := by
  intro L
  induction L with
  | nil =>
    intro d evs0 evs d2 t v _ hv h
    simp only [dispatchAll, Prod.mk.injEq, Except.ok.injEq] at h
    rw [← h.2]; exact hv
  | cons u ts ih =>
    intro d evs0 evs d2 t v hnl hv h
    simp only [dispatchAll] at h
    cases hp : processTask flow exec start d u with
    | error m => rw [hp] at h; cases h
    | ok r =>
      rw [hp] at h
      have hne : u ≠ t := fun he => hnl (he ▸ List.mem_cons_self u ts)
      have hv2 : lookupTS r.1 t = some v :=
        processTask_preserves_some hne hv (by rw [hp])
      exact ih r.1 _ _ _ t v (fun hts => hnl (List.mem_cons_of_mem _ hts)) hv2 h

/-- Splitting a dispatch-loop run at a list append. -/
theorem dispatchAll_append (flow : PFlow) (exec : TaskId → TSVal)
    (start : List TaskId) :
    ∀ (L1 L2 : List TaskId) (d : TaskDict) (evs0 : List Event),
      dispatchAll flow exec start (L1 ++ L2) d evs0 =
        match dispatchAll flow exec start L1 d evs0 with
        | (evs1, .ok d1) => dispatchAll flow exec start L2 d1 evs1
        | (evs1, .error m) => (evs1, .error m) := by
  intro L1
  induction L1 with
  | nil => intro L2 d evs0; simp [dispatchAll]
  | cons t ts ih =>
    intro L2 d evs0
    simp only [List.cons_append, dispatchAll]
    cases hp : processTask flow exec start d t with
    | error m => rfl
    | ok r => exact ih L2 r.1 (evs0 ++ [r.2])

/-- The dispatched-task sequence of a successfully completed loop is exactly
the processed task list (in order). -/
theorem dispatchAll_events_tasks (flow : PFlow) (exec : TaskId → TSVal)
    (start : List TaskId) :
    ∀ (L : List TaskId) (d : TaskDict) (evs0 evs : List Event) (d2 : TaskDict),
      dispatchAll flow exec start L d evs0 = (evs, .ok d2) →
      evs.filterMap Event.taskOf = evs0.filterMap Event.taskOf ++ L := by
  intro L
  induction L with
  | nil =>
    intro d evs0 evs d2 h
    simp only [dispatchAll, Prod.mk.injEq, Except.ok.injEq] at h
    rw [← h.1]; simp
  | cons u ts ih =>
    intro d evs0 evs d2 h
    simp only [dispatchAll] at h
    cases hp : processTask flow exec start d u with
    | error m => rw [hp] at h; cases h
    | ok r =>
      rw [hp] at h
      have := ih r.1 _ _ _ h
      rw [this, List.filterMap_append]
      have ht : [r.2].filterMap Event.taskOf = [u] := by
        simp [List.filterMap, processTask_ok_taskOf (show processTask flow exec start d u = .ok (r.1, r.2) from by rw [hp])]
      rw [ht]
      simp

/-! ## Helper lemmas for pre-flight checks, unions and ordering -/

/-- Folding `min` from an accumulator reaches a nonpositive value exactly
when the accumulator or some list element is nonpositive. -/
theorem foldl_min_le_zero (l : List Int) :
    ∀ acc : Int, l.foldl min acc ≤ 0 ↔ acc ≤ 0 ∨ ∃ v ∈ l, v ≤ 0 := by
  induction l with
  | nil => intro acc; simp
  | cons x xs ih =>
    intro acc
    simp only [List.foldl_cons, ih (min acc x), min_le_iff, List.mem_cons]
    constructor
    · rintro (h | ⟨v, hv, hv0⟩)
      · rcases h with h | h
        · exact Or.inl h
        · exact Or.inr ⟨x, Or.inl rfl, h⟩
      · exact Or.inr ⟨v, Or.inr hv, hv0⟩
    · rintro (h | ⟨v, hv | hv, hv0⟩)
      · exact Or.inl (Or.inl h)
      · exact Or.inl (Or.inr (hv ▸ hv0))
      · exact Or.inr ⟨v, hv, hv0⟩

/-- `min(values, default=1) <= 0` holds exactly when some value is `<= 0`. -/
theorem minDefault1_le_zero (l : List Int) :
    minDefault1 l ≤ 0 ↔ ∃ v ∈ l, v ≤ 0 := by
  cases l with
  | nil => simp [minDefault1]
  | cons x xs =>
    simp only [minDefault1, foldl_min_le_zero, List.mem_cons]
    constructor
    · rintro (h | ⟨v, hv, hv0⟩)
      · exact ⟨x, Or.inl rfl, h⟩
      · exact ⟨v, Or.inr hv, hv0⟩
    · rintro ⟨v, hv | hv, hv0⟩
      · exact Or.inl (hv ▸ hv0)
      · exact Or.inr ⟨v, hv, hv0⟩

/-- The exception handler around the scheduling body never produces a
configuration error: those are raised before the body runs. -/
theorem handleBody_no_config (b : Bool) (r : List Event × Except BodyExc FState)
    (evs : List Event) (m : String) :
    handleBody b r ≠ (evs, .error (.config m)) := by
  obtain ⟨evs0, er⟩ := r
  cases er with
  | ok s => simp [handleBody]
  | error e =>
    cases e with
    | endrun s => simp [handleBody]
    | other msg =>
      by_cases hb : b <;> simp [handleBody, hb]

/-- Membership in the modelled set union. -/
theorem mem_unionTasks {a : TaskId} {xs ys : List TaskId}
    (h : a ∈ xs ∨ a ∈ ys) : a ∈ unionTasks xs ys := by
  unfold unionTasks
  by_cases hx : a ∈ xs
  · exact List.mem_append_left _ hx
  · rcases h with h | h
    · exact absurd h hx
    · exact List.mem_append_right _ (List.mem_filter.mpr ⟨h, by simpa using hx⟩)

/-- Filtering preserves relative order: if `a` appears before `b` and both
survive the filter, `a` still appears before `b`. -/
theorem precedes_filter {l : List TaskId} {a b : TaskId}
    (p : TaskId → Bool) (h : Precedes l a b) (ha : p a = true)
    (hb : p b = true) : Precedes (l.filter p) a b := by
  obtain ⟨l1, l2, l3, rfl⟩ := h
  refine ⟨l1.filter p, l2.filter p, l3.filter p, ?_⟩
  simp [List.filter_append, List.filter_cons, ha, hb]

/-- In a duplicate-free list, a task cannot appear before itself. -/
theorem nodup_not_precedes_self {l : List TaskId} {a : TaskId}
    (hnd : l.Nodup) : ¬ Precedes l a a := by
  rintro ⟨l1, l2, l3, rfl⟩
  have hc := List.nodup_iff_count_le_one.mp hnd a
  simp [List.count_append] at hc
  omega

/-- A state whose `is_running` predicate holds is the Running variant. -/
theorem SKind_is_running_eq {k : SKind} (h : k.is_running = true) :
    k = .running := by
  cases k <;> first | rfl | simp [SKind.is_running] at h

/-! ## Claim C10 -/

/-- Claim C10: a task with no entry in `task_states` at the moment it is
looked up as an upstream of another task is substituted by a `Failed` state
with message "Task state not available." (inserted by the defaultdict)
rather than raising an error. -/
theorem claim_C10_missing_upstream_default (d : TaskDict) (t : TaskId)
    (h : lookupTS d t = none) :
    (dictLookupD d t).2 =
      .val (.single
        { kind := .failed, message := "Task state not available.",
          cached_inputs := [] }) ∧
    (dictLookupD d t).1 = d ++ [(t, .val (.single default_task_state))] := by
  simp [dictLookupD, h, default_task_state]

/-- Witness for claim C10 at the empty dictionary. -/
theorem claim_C10_witness :
    (dictLookupD [] 0).2 =
      .val (.single
        { kind := .failed, message := "Task state not available.",
          cached_inputs := [] }) ∧
    (dictLookupD [] 0).1 = [] ++ [(0, .val (.single default_task_state))] :=
  claim_C10_missing_upstream_default [] 0 rfl

/-! ## Claim C7 -/

/-- Claim C7: a starting flow state that is finished, or neither pending nor
running, makes `check_flow_is_pending_or_running` raise `ENDRUN` carrying
that state unchanged — so `run` returns it unchanged; `set_flow_to_running`
maps a pending state to Running ("Running flow.") and passes a running
state through untouched. -/
theorem claim_C7_flow_state_checks (s : FState) (flow : PFlow)
    (exec : TaskId → TSVal) (supplied : List (TaskId × TSVal))
    (start rts : List TaskId) (rf : Bool)
    (throttleArg : List (String × Int)) (roe : Bool) :
    ((s.kind.is_finished = true ∨
        (s.kind.is_pending = false ∧ s.kind.is_running = false)) →
      check_flow_is_pending_or_running s = .error (.endrun s)) ∧
    (s.kind.is_pending = true →
      set_flow_to_running s =
        .ok { kind := .running, message := "Running flow.", result := none }) ∧
    (s.kind.is_running = true → set_flow_to_running s = .ok s) ∧
    (¬ minDefault1 ((effThrottle flow throttleArg).map (fun p => p.2)) ≤ 0 →
      ¬ (∃ t ∈ rts, ¬ t ∈ flow.tasks) →
      (s.kind.is_finished = true ∨
        (s.kind.is_pending = false ∧ s.kind.is_running = false)) →
      FlowRunner_run flow exec (some s) supplied start rts rf throttleArg roe =
        ([], .ok s)) := by
  have hchk : (s.kind.is_finished = true ∨
      (s.kind.is_pending = false ∧ s.kind.is_running = false)) →
      check_flow_is_pending_or_running s = .error (.endrun s) := by
    intro h
    rcases h with hf | ⟨hp, hr⟩
    · simp [check_flow_is_pending_or_running, hf]
    · by_cases hf : s.kind.is_finished
      · simp [check_flow_is_pending_or_running, hf]
      · simp [check_flow_is_pending_or_running, hf, hp, hr]
  refine ⟨hchk, ?_, ?_, ?_⟩
  · intro h
    simp [set_flow_to_running, h]
  · intro h
    have hk := SKind_is_running_eq h
    simp [set_flow_to_running, hk, SKind.is_pending, SKind.is_running]
  · intro hThr hRet hs
    have h1 := hchk hs
    simp [FlowRunner_run, hThr, hRet, scheduleBody, h1, handleBody]

/-- Witness for claim C7: a finished state short-circuits the checks and the
whole run; a pending state is set to Running; a running state passes
through. -/
theorem claim_C7_witness :
    check_flow_is_pending_or_running fsDone = .error (.endrun fsDone) ∧
    set_flow_to_running pendingFState =
      .ok { kind := .running, message := "Running flow.", result := none } ∧
    set_flow_to_running fsRunning = .ok fsRunning ∧
    FlowRunner_run flowAB execSucc (some fsDone) [] [] [] false [] false =
      ([], .ok fsDone) :=
  ⟨(claim_C7_flow_state_checks fsDone flowAB execSucc [] [] [] false [] false).1
      (Or.inl rfl),
   (claim_C7_flow_state_checks pendingFState flowAB execSucc [] [] [] false []
      false).2.1 rfl,
   (claim_C7_flow_state_checks fsRunning flowAB execSucc [] [] [] false []
      false).2.2.1 rfl,
   (claim_C7_flow_state_checks fsDone flowAB execSucc [] [] [] false []
      false).2.2.2 (by decide) (by decide) (Or.inl rfl)⟩

/-! ## Claim C2 -/

/-- Claim C2: when the scheduling body of `FlowRunner.run` raises, `run`
returns the state carried by an `ENDRUN`; any other exception yields
`Failed(message=exc)` when the `_raise_on_exception` context flag is unset,
and propagates to the caller when it is set. -/
theorem claim_C2_exception_handling (flow : PFlow) (exec : TaskId → TSVal)
    (state0 : FState) (supplied : List (TaskId × TSVal))
    (start rts : List TaskId) (rf : Bool)
    (throttleArg : List (String × Int)) (roe : Bool)
    (evs : List Event) (s : FState) (e : String)
    (hThr : ¬ minDefault1 ((effThrottle flow throttleArg).map (fun p => p.2)) ≤ 0)
    (hRet : ¬ (∃ t ∈ rts, ¬ t ∈ flow.tasks)) :
    (scheduleBody flow exec state0 supplied start rts rf =
        (evs, .error (.endrun s)) →
      FlowRunner_run flow exec (some state0) supplied start rts rf throttleArg
        roe = (evs, .ok s)) ∧
    (scheduleBody flow exec state0 supplied start rts rf =
        (evs, .error (.other e)) → roe = false →
      FlowRunner_run flow exec (some state0) supplied start rts rf throttleArg
        roe = (evs, .ok { kind := .failed, message := e, result := none })) ∧
    (scheduleBody flow exec state0 supplied start rts rf =
        (evs, .error (.other e)) → roe = true →
      FlowRunner_run flow exec (some state0) supplied start rts rf throttleArg
        roe = (evs, .error (.raised e))) := by
  refine ⟨?_, ?_, ?_⟩
  · intro hsb
    simp [FlowRunner_run, hThr, hRet, hsb, handleBody]
  · intro hsb hroe
    simp [FlowRunner_run, hThr, hRet, hsb, handleBody, hroe]
  · intro hsb hroe
    simp [FlowRunner_run, hThr, hRet, hsb, handleBody, hroe]

/-- Witness for claim C2: a finished starting state raises `ENDRUN` whose
state is returned; an `AssertionError` in the body becomes a `Failed` flow
state, or propagates under the debug flag. -/
theorem claim_C2_witness :
    FlowRunner_run flowAB execSucc (some fsDone) [] [] [] false [] false =
      ([], .ok fsDone) ∧
    FlowRunner_run flowAB execSucc (some pendingFState)
      [(1, .single sSuccessX)] [1] [] false [] false =
      ([], .ok { kind := .failed, message := "AssertionError", result := none }) ∧
    FlowRunner_run flowAB execSucc (some pendingFState)
      [(1, .single sSuccessX)] [1] [] false [] true =
      ([], .error (.raised "AssertionError")) :=
  ⟨(claim_C2_exception_handling flowAB execSucc fsDone [] [] [] false [] false
      [] fsDone "x" (by decide) (by decide)).1 rfl,
   (claim_C2_exception_handling flowAB execSucc pendingFState
      [(1, .single sSuccessX)] [1] [] false [] false [] fsDone "AssertionError"
      (by decide) (by decide)).2.1 rfl rfl,
   (claim_C2_exception_handling flowAB execSucc pendingFState
      [(1, .single sSuccessX)] [1] [] false [] true [] fsDone "AssertionError"
      (by decide) (by decide)).2.2 rfl rfl⟩

/-! ## Claim C3 -/

/-- Claim C3: a run whose effective throttle (the argument, or the flow's
own throttle when no argument is given) contains a value `<= 0` fails with
the configuration error before any task is dispatched (empty event trace);
when every effective throttle value is positive — in particular when the
effective throttle is empty — no throttle error is raised: the only
configuration error still possible is the `return_tasks` one. -/
theorem claim_C3_throttle_validation (flow : PFlow) (exec : TaskId → TSVal)
    (state0 : Option FState) (supplied : List (TaskId × TSVal))
    (start rts : List TaskId) (rf : Bool)
    (throttleArg : List (String × Int)) (roe : Bool) :
    ((∃ p ∈ effThrottle flow throttleArg, p.2 ≤ 0) →
      FlowRunner_run flow exec state0 supplied start rts rf throttleArg roe =
        ([], .error (.config (throttleErrorMsg (effThrottle flow throttleArg))))) ∧
    ((∀ p ∈ effThrottle flow throttleArg, 0 < p.2) →
      ∀ evs m,
        FlowRunner_run flow exec state0 supplied start rts rf throttleArg roe =
          (evs, .error (.config m)) → m = returnTasksErrorMsg) := by
  constructor
  · intro h
    have hmin : minDefault1
        ((effThrottle flow throttleArg).map (fun p => p.2)) ≤ 0 := by
      rw [minDefault1_le_zero]
      obtain ⟨p, hp, hp0⟩ := h
      exact ⟨p.2, List.mem_map_of_mem _ hp, hp0⟩
    simp [FlowRunner_run, hmin]
  · intro h evs m hrun
    have hmin : ¬ minDefault1
        ((effThrottle flow throttleArg).map (fun p => p.2)) ≤ 0 := by
      rw [minDefault1_le_zero]
      rintro ⟨v, hv, hv0⟩
      obtain ⟨p, hp, rfl⟩ := List.mem_map.mp hv
      have := h p hp
      omega
    simp only [FlowRunner_run] at hrun
    rw [if_neg hmin] at hrun
    by_cases hR : ∃ t ∈ rts, ¬ t ∈ flow.tasks
    · rw [if_pos hR] at hrun
      simp only [Prod.mk.injEq, Except.error.injEq, RunError.config.injEq]
        at hrun
      exact hrun.2.symm
    · rw [if_neg hR] at hrun
      exact absurd hrun (handleBody_no_config roe _ evs m)

/-- Witness for claim C3: the throttle value 0 aborts the run with the
formatted error and an empty trace; with a positive throttle the only
configuration error left is the `return_tasks` one. -/
theorem claim_C3_witness :
    FlowRunner_run flowAB execSucc none [] [] [] false [("db", 0)] false =
      ([], .error (.config (throttleErrorMsg (effThrottle flowAB [("db", 0)])))) ∧
    "Some tasks in return_tasks were not found in the flow." =
      returnTasksErrorMsg :=
  ⟨(claim_C3_throttle_validation flowAB execSucc none [] [] [] false
      [("db", 0)] false).1 ⟨("db", 0), by decide, by decide⟩,
   (claim_C3_throttle_validation flowAB execSucc none [] [] [5] false
      [("db", 2)] false).2 (by decide) []
      "Some tasks in return_tasks were not found in the flow." rfl⟩

/-! ## Claim C8 -/

/-- Claim C8: a run whose `return_tasks` contains a task outside
`flow.tasks` fails with a configuration error before any task is dispatched
(empty event trace); when `return_tasks` is a subset of the flow's tasks —
in particular when it is empty — no such error is raised: the only
configuration error still possible is the throttle one. -/
theorem claim_C8_return_tasks_validation (flow : PFlow) (exec : TaskId → TSVal)
    (state0 : Option FState) (supplied : List (TaskId × TSVal))
    (start rts : List TaskId) (rf : Bool)
    (throttleArg : List (String × Int)) (roe : Bool) :
    ((∃ t ∈ rts, ¬ t ∈ flow.tasks) →
      ∃ m, FlowRunner_run flow exec state0 supplied start rts rf throttleArg
        roe = ([], .error (.config m))) ∧
    ((∀ t ∈ rts, t ∈ flow.tasks) →
      ∀ evs m,
        FlowRunner_run flow exec state0 supplied start rts rf throttleArg roe =
          (evs, .error (.config m)) →
        m = throttleErrorMsg (effThrottle flow throttleArg)) := by
  constructor
  · intro h
    by_cases hmin : minDefault1
        ((effThrottle flow throttleArg).map (fun p => p.2)) ≤ 0
    · refine ⟨throttleErrorMsg (effThrottle flow throttleArg), ?_⟩
      simp [FlowRunner_run, hmin]
    · refine ⟨returnTasksErrorMsg, ?_⟩
      simp only [FlowRunner_run]
      rw [if_neg hmin, if_pos h]
  · intro h evs m hrun
    simp only [FlowRunner_run] at hrun
    by_cases hmin : minDefault1
        ((effThrottle flow throttleArg).map (fun p => p.2)) ≤ 0
    · rw [if_pos hmin] at hrun
      simp only [Prod.mk.injEq, Except.error.injEq, RunError.config.injEq]
        at hrun
      exact hrun.2.symm
    · rw [if_neg hmin] at hrun
      have hR : ¬ ∃ t ∈ rts, ¬ t ∈ flow.tasks := by
        rintro ⟨t, ht, hnt⟩
        exact hnt (h t ht)
      rw [if_neg hR] at hrun
      exact absurd hrun (handleBody_no_config roe _ evs m)

/-- Witness for claim C8: returning an unknown task aborts the run with a
configuration error and an empty trace; with valid `return_tasks` the only
configuration error left is the throttle one. -/
theorem claim_C8_witness :
    (∃ m, FlowRunner_run flowAB execSucc none [] [] [5] false [] false =
      ([], .error (.config m))) ∧
    "Cannot throttle tags \"db\" - an invalid value less than 1 was provided." =
      throttleErrorMsg (effThrottle flowAB [("db", 0)]) :=
  ⟨(claim_C8_return_tasks_validation flowAB execSucc none [] [] [5] false []
      false).1 ⟨5, by decide, by decide⟩,
   (claim_C8_return_tasks_validation flowAB execSucc none [] [] [1] false
      [("db", 0)] false).2 (by decide) []
      "Cannot throttle tags \"db\" - an invalid value less than 1 was provided."
      rfl⟩

/-- A list with a member falsifying the predicate fails `List.all`. -/
theorem all_eq_false_of_mem {α} {l : List α} {p : α → Bool} {x : α}
    (hx : x ∈ l) (hpx : p x = false) : l.all p = false := by
  rw [Bool.eq_false_iff]
  intro hall
  rw [List.all_eq_true] at hall
  have h := hall x hx
  rw [hpx] at h
  cases h

/-- A list whose members all falsify the predicate fails `List.any`. -/
theorem any_eq_false_of_all {α} {l : List α} {p : α → Bool}
    (h : ∀ x ∈ l, p x = false) : l.any p = false := by
  rw [Bool.eq_false_iff]
  intro hany
  rw [List.any_eq_true] at hany
  obtain ⟨x, hx, hpx⟩ := hany
  rw [h x hx] at hpx
  cases hpx

/-! ## Claim C1 -/

/-- Claim C1: whenever aggregation completes (all waited states are
available), the final flow state is given by the ordered first-match
classification over the flattened terminal and reference states: any
unfinished terminal child state gives Pending with message "Some terminal
tasks are still pending."; otherwise any failed key state gives Failed;
otherwise all-successful key states give Success; otherwise Success with
message "No reference tasks failed." — and in every branch the result is
the `return_states` mapping. -/
theorem claim_C1_classification (f : TaskId → Option TSVal)
    (terminal reference rts : List TaskId) (tv kv rv : List TSVal)
    (h1 : traverseFinals f terminal = some tv)
    (h2 : traverseFinals f reference = some kv)
    (h3 : traverseFinals f rts = some rv) :
    classifyFrom f terminal reference rts =
      .ok (classify (flattenSeq tv) (flattenSeq kv) (rts.zip rv)) ∧
    ∀ (ts ks : List TState) (rs : List (TaskId × TSVal)),
      (classify ts ks rs).result = some rs ∧
      ((∃ s ∈ ts, s.kind.is_finished = false) →
        classify ts ks rs =
          { kind := .pending,
            message := "Some terminal tasks are still pending.",
            result := some rs }) ∧
      ((∀ s ∈ ts, s.kind.is_finished = true) →
        (∃ s ∈ ks, s.kind.is_failed = true) →
        classify ts ks rs =
          { kind := .failed, message := "Some reference tasks failed.",
            result := some rs }) ∧
      ((∀ s ∈ ts, s.kind.is_finished = true) →
        (∀ s ∈ ks, s.kind.is_failed = false) →
        (∀ s ∈ ks, s.kind.is_successful = true) →
        classify ts ks rs =
          { kind := .success, message := "All reference tasks succeeded.",
            result := some rs }) ∧
      ((∀ s ∈ ts, s.kind.is_finished = true) →
        (∀ s ∈ ks, s.kind.is_failed = false) →
        (∃ s ∈ ks, s.kind.is_successful = false) →
        classify ts ks rs =
          { kind := .success, message := "No reference tasks failed.",
            result := some rs }) := by
  refine ⟨by simp [classifyFrom, h1, h2, h3], ?_⟩
  intro ts ks rs
  refine ⟨?_, ?_, ?_, ?_, ?_⟩
  · unfold classify
    split
    · rfl
    · split
      · rfl
      · split
        · rfl
        · rfl
  · rintro ⟨s, hs, hsf⟩
    have hc : ts.all (fun s => s.kind.is_finished) = false :=
      all_eq_false_of_mem hs hsf
    simp [classify, hc]
  · rintro hfin ⟨s, hs, hsf⟩
    have hc1 : ts.all (fun s => s.kind.is_finished) = true :=
      List.all_eq_true.mpr hfin
    have hc2 : ks.any (fun s => s.kind.is_failed) = true :=
      List.any_eq_true.mpr ⟨s, hs, hsf⟩
    simp [classify, hc1, hc2]
  · intro hfin hnf hsucc
    have hc1 : ts.all (fun s => s.kind.is_finished) = true :=
      List.all_eq_true.mpr hfin
    have hc2 : ks.any (fun s => s.kind.is_failed) = false :=
      any_eq_false_of_all hnf
    have hc3 : ks.all (fun s => s.kind.is_successful) = true :=
      List.all_eq_true.mpr hsucc
    simp [classify, hc1, hc2, hc3]
  · rintro hfin hnf ⟨s, hs, hsx⟩
    have hc1 : ts.all (fun s => s.kind.is_finished) = true :=
      List.all_eq_true.mpr hfin
    have hc2 : ks.any (fun s => s.kind.is_failed) = false :=
      any_eq_false_of_all hnf
    have hc3 : ks.all (fun s => s.kind.is_successful) = false :=
      all_eq_false_of_mem hs hsx
    simp [classify, hc1, hc2, hc3]

/-- Witness for claim C1 at a one-task aggregation whose only state is
still pending. -/
theorem claim_C1_witness :
    classifyFrom fC1 [0] [0] [] =
      .ok (classify (flattenSeq [.single sPending])
        (flattenSeq [.single sPending]) (List.zip [] [])) ∧
    (classify [sPending] [sPending] []).result = some [] :=
  ⟨(claim_C1_classification fC1 [0] [0] [] [.single sPending]
      [.single sPending] [] rfl rfl rfl).1,
   ((claim_C1_classification fC1 [0] [0] [] [.single sPending]
      [.single sPending] [] rfl rfl rfl).2 [sPending] [sPending] []).1⟩

/-! ## Claim C4 -/

/-- Claim C4: when dispatching a non-mapped task, every upstream entry whose
upstream task is mapped is waited on, so the dispatch event carries the
materialized value in place of the future, while entries with non-mapped
upstream tasks pass through unchanged; a mapped task is dispatched with its
upstream states entirely unresolved. -/
theorem claim_C4_mapped_upstream_wait (flow : PFlow) (exec : TaskId → TSVal)
    (start : List TaskId) (d : TaskDict) (t : TaskId) :
    (flow.mapped_info t = false →
      ∀ d2 ev, processTask flow exec start d t = .ok (d2, ev) →
        ev.upsOf = resolveMappedUpstreams flow exec
          (gatherUpstreams d (flow.edges_to t)).2) ∧
    (flow.mapped_info t = true →
      ∀ d2 ev, processTask flow exec start d t = .ok (d2, ev) →
        ev.upsOf = (gatherUpstreams d (flow.edges_to t)).2) ∧
    (∀ ups : List (Edge × FutVal), ∀ p ∈ resolveMappedUpstreams flow exec ups,
      flow.mapped_info p.1.upstream = true → ∃ v, p.2 = FutVal.val v) ∧
    (∀ ups : List (Edge × FutVal), ∀ p ∈ ups,
      flow.mapped_info p.1.upstream = false →
      p ∈ resolveMappedUpstreams flow exec ups) ∧
    (∀ ups : List (Edge × FutVal), ∀ p ∈ ups,
      flow.mapped_info p.1.upstream = true →
      (p.1, FutVal.val (resolveFut exec p.2)) ∈
        resolveMappedUpstreams flow exec ups) := by
  refine ⟨?_, ?_, ?_, ?_, ?_⟩
  · intro hm d2 ev h
    simp only [processTask] at h
    cases hti : taskInputs start (gatherUpstreams d (flow.edges_to t)).1 t with
    | error m => rw [hti] at h; cases h
    | ok inputs =>
      rw [hti] at h
      simp [hm] at h
      rw [← h.2]
      rfl
  · intro hm d2 ev h
    simp only [processTask] at h
    cases hti : taskInputs start (gatherUpstreams d (flow.edges_to t)).1 t with
    | error m => rw [hti] at h; cases h
    | ok inputs =>
      rw [hti] at h
      simp [hm] at h
      rw [← h.2]
      rfl
  · intro ups p hp hm
    obtain ⟨q, hq, hfq⟩ := List.mem_map.mp hp
    by_cases hqm : flow.mapped_info q.1.upstream
    · rw [if_pos hqm] at hfq
      rw [← hfq]
      exact ⟨resolveFut exec q.2, rfl⟩
    · rw [if_neg hqm] at hfq
      rw [← hfq] at hm
      exact absurd hm hqm
  · intro ups p hp hm
    refine List.mem_map.mpr ⟨p, hp, ?_⟩
    simp [hm]
  · intro ups p hp hm
    refine List.mem_map.mpr ⟨p, hp, ?_⟩
    simp [hm]

/-- Witness for claim C4: a non-mapped downstream of a mapped upstream is
dispatched with the upstream future replaced by its materialized value; a
mapped task's dispatch leaves its upstream states untouched. -/
theorem claim_C4_witness :
    (Event.dispatched 1 false none
        [(edge01m, FutVal.val (TSVal.single sSuccess))] [] false).upsOf =
      resolveMappedUpstreams flowABmapUp execSucc
        (gatherUpstreams [(0, FutVal.fut 0)] (flowABmapUp.edges_to 1)).2 ∧
    (Event.dispatched 0 true none [] [] false).upsOf =
      (gatherUpstreams [] (flowABmapBoth.edges_to 0)).2 ∧
    (∃ v, (edge01m, FutVal.val (TSVal.single sSuccess)).2 = FutVal.val v) :=
  ⟨(claim_C4_mapped_upstream_wait flowABmapUp execSucc [] [(0, FutVal.fut 0)]
      1).1 rfl _ _ rfl,
   (claim_C4_mapped_upstream_wait flowABmapBoth execSucc [] [] 0).2.1 rfl _ _
      rfl,
   (claim_C4_mapped_upstream_wait flowABmapUp execSucc [] [(0, FutVal.fut 0)]
      1).2.2.1 [(edge01m, FutVal.fut 0)]
      (edge01m, FutVal.val (TSVal.single sSuccess)) (by decide) (by decide)⟩

/-- Every classification branch carries the `return_states` mapping as its
result. -/
theorem classify_result (ts ks : List TState) (rs : List (TaskId × TSVal)) :
    (classify ts ks rs).result = some rs := by
  unfold classify
  split
  · rfl
  · split
    · rfl
    · split
      · rfl
      · rfl

/-- A successful aggregation resolves every return task and zips the
results into the final state's result mapping. -/
theorem classifyFrom_ok_result {f : TaskId → Option TSVal}
    {terminal reference rts : List TaskId} {fs : FState}
    (h : classifyFrom f terminal reference rts = .ok fs) :
    ∃ rv, traverseFinals f rts = some rv ∧ fs.result = some (rts.zip rv) := by
  unfold classifyFrom at h
  rcases h1 : traverseFinals f terminal with _ | tv <;>
    rcases h2 : traverseFinals f reference with _ | kv <;>
      rcases h3 : traverseFinals f rts with _ | rv <;>
        rw [h1, h2, h3] at h <;> simp at h
  exact ⟨rv, rfl, by rw [← h]; exact classify_result _ _ _⟩

/-- Every task of a successfully traversed list appears in the zip of that
list with the traversal results. -/
theorem mem_zip_of_traverse {f : TaskId → Option TSVal} :
    ∀ (l : List TaskId) (rv : List TSVal), traverseFinals f l = some rv →
      ∀ t ∈ l, ∃ v, (t, v) ∈ l.zip rv := by
  intro l
  induction l with
  | nil => intro rv _ t ht; cases ht
  | cons u us ih =>
    intro rv h t ht
    unfold traverseFinals at h
    cases hu : f u with
    | none => rw [hu] at h; cases h
    | some v =>
      rw [hu] at h
      cases hus : traverseFinals f us with
      | none => rw [hus] at h; cases h
      | some vs =>
        rw [hus] at h
        injection h with h5
        subst h5
        rcases List.mem_cons.mp ht with rfl | hts
        · exact ⟨v, List.mem_cons_self _ _⟩
        · obtain ⟨w, hw⟩ := ih vs hus t hts
          exact ⟨w, List.mem_cons_of_mem _ hw⟩

/-! ## Claim C5 -/

/-- Claim C5: with `return_failed` the aggregation waits on the states of
every recorded task — in particular of every dispatched task — and every
task whose final state is an instance of `Failed` or `Retrying` is added to
the return tasks and therefore appears in the returned result mapping when
classification completes; without `return_failed` it waits exactly on
`terminal_tasks ∪ reference_tasks ∪ return_tasks`. -/
theorem claim_C5_aggregation_wait_sets (flow : PFlow) (exec : TaskId → TSVal)
    (d : TaskDict) (rts : List TaskId) (start : List TaskId)
    (L : List TaskId) (d0 : TaskDict) (evs0 evs : List Event) :
    ((collectResults flow exec d rts true).1 =
      .waited (d.map (fun p => p.1))) ∧
    (∀ p ∈ d, isFailedOrRetrying (resolveFut exec p.2) = true →
      p.1 ∈ collectReturnTasks exec d rts true) ∧
    (dispatchAll flow exec start L d0 evs0 = (evs, .ok d) →
      ∀ t ∈ L, (lookupTS d t).isSome) ∧
    (∀ fs, (collectResults flow exec d rts true).2 = .ok fs →
      ∀ p ∈ d, isFailedOrRetrying (resolveFut exec p.2) = true →
        ∃ rsl v, fs.result = some rsl ∧ (p.1, v) ∈ rsl) ∧
    ((collectResults flow exec d rts false).1 =
      .waited (unionTasks (unionTasks flow.terminal_tasks flow.reference_tasks)
        rts)) := by
  have hadd : ∀ p ∈ d, isFailedOrRetrying (resolveFut exec p.2) = true →
      p.1 ∈ collectReturnTasks exec d rts true := by
    intro p hp hfr
    unfold collectReturnTasks
    rw [if_pos rfl]
    apply mem_unionTasks
    right
    unfold failedOrRetryingTasks
    apply List.mem_map.mpr
    refine ⟨(p.1, resolveFut exec p.2), ?_, rfl⟩
    apply List.mem_filter.mpr
    constructor
    · exact List.mem_map.mpr ⟨p, hp, rfl⟩
    · simpa using hfr
  refine ⟨rfl, hadd, ?_, ?_, rfl⟩
  · intro h t ht
    exact dispatchAll_keys flow exec start L d0 evs0 evs d h t ht
  · intro fs hok p hp hfr
    have hok2 : classifyFrom (lookupFinal (allFinalStates exec d))
        flow.terminal_tasks flow.reference_tasks
        (collectReturnTasks exec d rts true) = .ok fs := hok
    obtain ⟨rv, htr, hres⟩ := classifyFrom_ok_result hok2
    obtain ⟨v, hv⟩ :=
      mem_zip_of_traverse (collectReturnTasks exec d rts true) rv htr p.1
        (hadd p hp hfr)
    exact ⟨_, v, hres, hv⟩

/-- Witness for claim C5 on `flowAB` where task 0 fails: all recorded tasks
are waited on, the failed task 0 joins the return tasks and appears in the
result mapping; without `return_failed` the wait set is the union. -/
theorem claim_C5_witness :
    (collectResults flowAB execFail0 d01 [] true).1 =
      .waited (d01.map (fun p => p.1)) ∧
    (0 : TaskId) ∈ collectReturnTasks execFail0 d01 [] true ∧
    (lookupTS d01 0).isSome ∧
    (∃ rsl v,
      ({ kind := .success, message := "All reference tasks succeeded.",
         result := some [(0, TSVal.single sFailed)] } : FState).result =
        some rsl ∧ ((0 : TaskId), v) ∈ rsl) ∧
    (collectResults flowAB execFail0 d01 [] false).1 =
      .waited (unionTasks
        (unionTasks flowAB.terminal_tasks flowAB.reference_tasks) []) :=
  ⟨(claim_C5_aggregation_wait_sets flowAB execFail0 d01 [] [] [0, 1] [] []
      [evA0, evA1]).1,
   (claim_C5_aggregation_wait_sets flowAB execFail0 d01 [] [] [0, 1] [] []
      [evA0, evA1]).2.1 (0, FutVal.fut 0) (by decide) (by decide),
   (claim_C5_aggregation_wait_sets flowAB execFail0 d01 [] [] [0, 1] [] []
      [evA0, evA1]).2.2.1 rfl 0 (by decide),
   (claim_C5_aggregation_wait_sets flowAB execFail0 d01 [] [] [0, 1] [] []
      [evA0, evA1]).2.2.2.1
      { kind := .success, message := "All reference tasks succeeded.",
        result := some [(0, TSVal.single sFailed)] }
      rfl (0, FutVal.fut 0) (by decide) (by decide),
   (claim_C5_aggregation_wait_sets flowAB execFail0 d01 [] [] [0, 1] [] []
      [evA0, evA1]).2.2.2.2⟩

/-- The stored order of `flowAB` is topological. -/
theorem topoOK_flowAB : TopoOK flowAB := by
  intro e he
  simp [flowAB] at he
  subst he
  exact ⟨[], [], [], rfl⟩

/-! ## Claim C6 -/

/-- Claim C6 (amended): tasks are dispatched exactly in the order of
`sorted_tasks(start_tasks)` — the topological order restricted to the
subgraph reachable from `start_tasks` — so for every edge `u → v` whose two
endpoints are both dispatched, `u` is dispatched before `v`.  (The original
claim's stronger clause — that a task is never dispatched before ALL of its
upstream tasks have been dispatched — fails when `start_tasks` cuts an
upstream task out of the reachable subgraph; see the counterexample.) -/
theorem claim_C6_amended (flow : PFlow) (exec : TaskId → TSVal)
    (start : List TaskId) (d0 : TaskDict) (evs : List Event) (d2 : TaskDict)
    (hTopo : TopoOK flow) :
    (∀ e ∈ flow.edges, e.upstream ∈ flow.sorted_tasks start →
      e.downstream ∈ flow.sorted_tasks start →
      Precedes (flow.sorted_tasks start) e.upstream e.downstream) ∧
    (dispatchAll flow exec start (flow.sorted_tasks start) d0 [] =
        (evs, .ok d2) →
      evs.filterMap Event.taskOf = flow.sorted_tasks start) := by
  constructor
  · intro e he hu hd
    unfold PFlow.sorted_tasks at hu hd ⊢
    by_cases hr : start.isEmpty
    · rw [if_pos hr] at hu hd ⊢
      exact hTopo e he
    · rw [if_neg hr] at hu hd ⊢
      have hup := (List.mem_filter.mp hu).2
      have hdp := (List.mem_filter.mp hd).2
      exact precedes_filter _ (hTopo e he) hup hdp
  · intro h
    have h2 := dispatchAll_events_tasks flow exec start _ d0 [] evs d2 h
    simpa using h2

/-- Witness for claim C6 (amended) on the full run of `flowAB`: the edge's
endpoints are dispatched in order, and the dispatch trace equals the sorted
task list. -/
theorem claim_C6_witness :
    Precedes (flowAB.sorted_tasks []) 0 1 ∧
    [evA0, evA1].filterMap Event.taskOf = flowAB.sorted_tasks [] :=
  ⟨(claim_C6_amended flowAB execSucc [] [] [evA0, evA1] d01 topoOK_flowAB).1
      edge01 (by decide) (by decide) (by decide),
   (claim_C6_amended flowAB execSucc [] [] [evA0, evA1] d01 topoOK_flowAB).2
      rfl⟩

/-- Counterexample to claim C6 as stated: running `flowAB` with
`start_tasks = [1]` dispatches task 1 — whose upstream task 0 is never
dispatched at all — so a task CAN be dispatched before all its upstream
tasks have been dispatched. -/
theorem claim_C6_counterexample :
    edge01 ∈ flowAB.edges ∧
    (FlowRunner_run flowAB execSucc none [(1, .single sPendingX)] [1] []
      false [] false).1.filterMap Event.taskOf = [1] ∧
    ¬ ((0 : TaskId) ∈ (FlowRunner_run flowAB execSucc none
      [(1, .single sPendingX)] [1] [] false [] false).1.filterMap
        Event.taskOf) := by
  refine ⟨by decide, by decide, by decide⟩

/-! ## Claim C9 -/

/-- Claim C9 (amended): a task in `start_tasks` whose caller-supplied state
is a scalar Pending state is dispatched with that state's `cached_inputs`
as its inputs and with `ignore_trigger` set, even when its upstream tasks
are never dispatched: in any run of the dispatch loop over
`sorted_tasks(start_tasks)` that reaches the task, its dispatch event
carries exactly those inputs and the supplied state.  (As stated the claim
fails for non-Pending supplied states, which trip the source's
`isinstance(passed_state, Pending)` assertion: see the counterexample.) -/
theorem claim_C9_amended (flow : PFlow) (exec : TaskId → TSVal)
    (supplied : List (TaskId × TSVal)) (start : List TaskId)
    (t : TaskId) (s : TState) (P R : List TaskId)
    (evsP : List Event) (dP : TaskDict)
    (hstart : t ∈ start)
    (hSup : lookupTS (supplied.map (fun p => (p.1, FutVal.val p.2))) t =
      some (.val (.single s)))
    (hPend : s.kind.is_pending = true)
    (hDisp : flow.sorted_tasks start = P ++ t :: R)
    (hNod : (flow.sorted_tasks start).Nodup)
    (hP : dispatchAll flow exec start P
      (supplied.map (fun p => (p.1, FutVal.val p.2))) [] = (evsP, .ok dP)) :
    ∃ ev ∈ (dispatchAll flow exec start (flow.sorted_tasks start)
        (supplied.map (fun p => (p.1, FutVal.val p.2))) []).1,
      ev.taskOf = some t ∧ ev.inputsOf = s.cached_inputs ∧
      ev.igOf = true ∧ ev.stateArgOf = some (.val (.single s)) := by
  have hnotP : ¬ t ∈ P := by
    rw [hDisp] at hNod
    intro htP
    exact (List.nodup_append.mp hNod).2.2 htP (List.mem_cons_self t R)
  have hdP : lookupTS dP t = some (.val (.single s)) :=
    dispatchAll_preserves_some flow exec start P _ [] evsP dP t _ hnotP hSup hP
  have hd1 : lookupTS (gatherUpstreams dP (flow.edges_to t)).1 t =
      some (.val (.single s)) :=
    gatherUpstreams_fst_preserves _ hdP
  have hti : taskInputs start (gatherUpstreams dP (flow.edges_to t)).1 t =
      .ok s.cached_inputs := by
    simp [taskInputs, hstart, hd1, hPend]
  have hkey : ∃ d2 ev, processTask flow exec start dP t = .ok (d2, ev) ∧
      ev.taskOf = some t ∧ ev.inputsOf = s.cached_inputs ∧
      ev.igOf = true ∧ ev.stateArgOf = some (.val (.single s)) := by
    by_cases hm : flow.mapped_info t
    · refine ⟨updateTS (gatherUpstreams dP (flow.edges_to t)).1 t (.fut t),
        .dispatched t true
          (lookupTS (gatherUpstreams dP (flow.edges_to t)).1 t)
          (gatherUpstreams dP (flow.edges_to t)).2 s.cached_inputs
          (decide (t ∈ start)), ?_, rfl, rfl, ?_, ?_⟩
      · simp [processTask, hti, hm]
      · simp [Event.igOf, hstart]
      · simp [Event.stateArgOf, hd1]
    · refine ⟨updateTS (gatherUpstreams dP (flow.edges_to t)).1 t (.fut t),
        .dispatched t false
          (lookupTS (gatherUpstreams dP (flow.edges_to t)).1 t)
          (resolveMappedUpstreams flow exec
            (gatherUpstreams dP (flow.edges_to t)).2)
          s.cached_inputs (decide (t ∈ start)), ?_, rfl, rfl, ?_, ?_⟩
      · simp [processTask, hti, hm]
      · simp [Event.igOf, hstart]
      · simp [Event.stateArgOf, hd1]
  obtain ⟨d2, ev, hproc, hev1, hev2, hev3, hev4⟩ := hkey
  have hsplit : dispatchAll flow exec start (flow.sorted_tasks start)
      (supplied.map (fun p => (p.1, FutVal.val p.2))) [] =
      dispatchAll flow exec start (t :: R) dP evsP := by
    rw [hDisp, dispatchAll_append, hP]
  have hstep : dispatchAll flow exec start (t :: R) dP evsP =
      dispatchAll flow exec start R d2 (evsP ++ [ev]) := by
    simp only [dispatchAll, hproc]
  obtain ⟨tail, htail⟩ :=
    dispatchAll_events_prefix flow exec start R d2 (evsP ++ [ev])
  refine ⟨ev, ?_, hev1, hev2, hev3, hev4⟩
  rw [hsplit, hstep, htail]
  exact List.mem_append_left _ (List.mem_append_right _
    (List.mem_cons_self _ _))

/-- Witness for claim C9 (amended): starting `flowAB` at task 1 with a
supplied Pending state carrying `x = 7` dispatches task 1 with those
inputs, while its upstream task 0 is never dispatched. -/
theorem claim_C9_witness :
    ∃ ev ∈ (dispatchAll flowAB execSucc [1] (flowAB.sorted_tasks [1])
        [(1, FutVal.val (TSVal.single sPendingX))] []).1,
      ev.taskOf = some 1 ∧ ev.inputsOf = sPendingX.cached_inputs ∧
      ev.igOf = true ∧ ev.stateArgOf = some (.val (.single sPendingX)) :=
  claim_C9_amended flowAB execSucc [(1, .single sPendingX)] [1] 1 sPendingX
    [] [] [] [(1, FutVal.val (TSVal.single sPendingX))]
    (by decide) rfl rfl rfl (by decide) rfl

/-- Counterexample to claim C9 as stated: task 1 is in `start_tasks` and
has an entry in the supplied `task_states` — a Success state carrying
`cached_inputs x = 7` — yet the task does not run with those inputs: the
harvest trips the source's `isinstance(passed_state, Pending)` assertion,
no task is dispatched (empty trace), and the whole run returns
`Failed(message=AssertionError)`. -/
theorem claim_C9_counterexample :
    FlowRunner_run flowAB execSucc none [(1, .single sSuccessX)] [1] [] false
      [] false =
      ([], .ok
        { kind := .failed, message := "AssertionError", result := none }) ∧
    sSuccessX.cached_inputs = [("x", 7)] := by
  exact ⟨rfl, rfl⟩
